import Mathlib

/-!
Verification of the battleship core in src/main.py: field generation,
shot registration, sunken-ship proximity pruning, random targeting and the
hunt/target recommendation engine.

Modelling conventions: a Python list of cells becomes `List FieldCell`;
`field[i]` becomes `List.getD i FieldCell.WATER` (every read relevant to a
theorem is in bounds) and `field[i] = v` becomes `List.set`.  Each call to
`random.randint(0, n - 1)` is replaced by an injected pick, reduced modulo
the number of candidates, so every theorem quantifies over the randomness.
Arithmetic that Python performs on possibly negative integers is done in
`Int` at exactly the places the source does it.
-/

namespace Battleship

/-- The cell states of `FieldCell` in src/main.py. -/
inductive FieldCell where
  | WATER
  | SHIP
  | DEBRIS
  | SUNKEN
  | MISS
deriving DecidableEq

/-- The shot outcomes of `Shot` in src/main.py. -/
inductive Shot where
  | MISS
  | HIT
  | SUNK
deriving DecidableEq

abbrev Field := List FieldCell

/-- Row-major sweep of rows `[startY, endY)` against columns
`[startX, endX)`: the iteration pattern of the nested rectangle loops in
src/main.py. -/
def rectCells (startY endY startX endX : Nat) : List (Nat × Nat) :=
  (List.range' startY (endY - startY)).flatMap fun i =>
    (List.range' startX (endX - startX)).map fun j => (i, j)

/-- `_is_valid_x_ship_start` from src/main.py.  The source sweeps the
one-cell-extended rectangle around the horizontal run, appending the run
cells (row `cellY`, columns `[cellX, cellX + deckLength)`) as it passes them
and returning `[]` as soon as a non-`WATER` cell is seen; those appends
collapse to the closed form `shipCoords` below, guarded by the row of the
run being inside the swept row range. -/
def _is_valid_x_ship_start (field : Field) (cellIdx deckLength fieldSize : Nat) : List Nat :=
  let cellY := cellIdx / fieldSize
  let cellX := cellIdx % fieldSize
  if fieldSize - cellX < deckLength then []
  else
    let deckOffset := cellX + deckLength
    let startX := max (cellX - 1) 0
    let endX := min (deckOffset + 1) fieldSize
    let startY := max (cellY - 1) 0
    let endY := min (cellY + 2) fieldSize
    let shipCoords :=
      if cellY < endY then
        (List.range' cellX deckLength).map fun j => cellY * fieldSize + j
      else []
    if (rectCells startY endY startX endX).all
        (fun p => field.getD (p.1 * fieldSize + p.2) FieldCell.WATER == FieldCell.WATER)
    then shipCoords
    else []

/-- `_is_valid_y_ship_start` from src/main.py, the vertical counterpart of
`_is_valid_x_ship_start`. -/
def _is_valid_y_ship_start (field : Field) (cellIdx deckLength fieldSize : Nat) : List Nat :=
  let cellY := cellIdx / fieldSize
  let cellX := cellIdx % fieldSize
  if fieldSize - cellY < deckLength then []
  else
    let deckOffset := cellY + deckLength
    let startX := max (cellX - 1) 0
    let endX := min (cellX + 2) fieldSize
    let startY := max (cellY - 1) 0
    let endY := min (deckOffset + 1) fieldSize
    let shipCoords :=
      if cellX < endX then
        (List.range' cellY deckLength).map fun i => i * fieldSize + cellX
      else []
    if (rectCells startY endY startX endX).all
        (fun p => field.getD (p.1 * fieldSize + p.2) FieldCell.WATER == FieldCell.WATER)
    then shipCoords
    else []

/-- The in-place marking loop `for cell_idx in cells: field[cell_idx] = v`
used both by `generate_field` (with `SHIP`) and by `register_hit`
(with `SUNKEN`). -/
def markCells (field : Field) (cells : List Nat) (v : FieldCell) : Field :=
  cells.foldl (fun f c => f.set c v) field

/-- The candidate-placement sweep of one round of `generate_field`
(src/main.py lines 79-86): for every start cell collect the non-empty
horizontal and vertical valid placements, in that order. -/
def possiblePlacements (field : Field) (deckLength fieldSize : Nat) : List (List Nat) :=
  (List.range (fieldSize * fieldSize)).flatMap fun cellIdx =>
    (let shipXCoords := _is_valid_x_ship_start field cellIdx deckLength fieldSize
     if shipXCoords.isEmpty then [] else [shipXCoords]) ++
    (let shipYCoords := _is_valid_y_ship_start field cellIdx deckLength fieldSize
     if shipYCoords.isEmpty then [] else [shipYCoords])

/-- One placement round inside `generate_field` (src/main.py lines 79-95):
collect every valid placement of one `deckLength`-long ship, fail (`None`,
the raised `FieldGenerationException`) if there is none, otherwise choose
the placement selected by `pick` and mark its cells `SHIP`. -/
def generateStep (field : Field) (ships : List (List Nat))
    (deckLength fieldSize pick : Nat) : Option (Field × List (List Nat)) :=
  match possiblePlacements field deckLength fieldSize with
  | [] => none
  | s :: rest =>
    let ship := (s :: rest).get ⟨pick % (s :: rest).length, Nat.mod_lt _ (Nat.succ_pos _)⟩
    some (markCells field ship FieldCell.SHIP, ships ++ [ship])

/-- The ship lengths in placement order: `maxDeckLength` down to `1`, with
length `L` placed `maxDeckLength + 1 - L` times (src/main.py lines 77-78). -/
def shipPlacements (maxDeckLength : Nat) : List Nat :=
  (List.range' 1 maxDeckLength).reverse.flatMap fun deckLength =>
    List.replicate (maxDeckLength + 1 - deckLength) deckLength

/-- The placement loop of `generate_field`, threading the pick counter. -/
def placeShips (fieldSize : Nat) (picks : Nat → Nat) :
    List Nat → Nat → Field × List (List Nat) → Option (Field × List (List Nat))
  | [], _, st => some st
  | deckLength :: rest, n, st =>
    match generateStep st.1 st.2 deckLength fieldSize (picks n) with
    | none => none
    | some st' => placeShips fieldSize picks rest (n + 1) st'

/-- `generate_field` from src/main.py, with the `random.randint` draws
supplied by the oracle `picks` (draw number `n` is used modulo the number of
candidate placements of ship number `n`). -/
def generate_field (fieldSize maxDeckLength : Nat) (picks : Nat → Nat) :
    Option (Field × List (List Nat)) :=
  placeShips fieldSize picks (shipPlacements maxDeckLength) 0
    (List.replicate (fieldSize * fieldSize) FieldCell.WATER, [])

/-- How a call of `register_hit` ends: an explicit `return` of a `Shot`,
Python's implicit `None` return after the ship loop falls through, or a
failure of the `assert cell is FieldCell.SHIP` statement. -/
inductive RegisterOutcome where
  | ret : Shot → RegisterOutcome
  | noneReturn : RegisterOutcome
  | assertFail : RegisterOutcome
deriving DecidableEq

/-- The `for ship in ships` loop of `register_hit`: skip every ship not
containing `cellIdx`; in the first containing ship return `HIT` if any of
its cells is still `SHIP`, otherwise mark the whole ship `SUNKEN` and return
`SUNK`.  Falling off the loop reproduces Python's implicit `None` return. -/
def registerLoop (field : Field) (cellIdx : Nat) :
    List (List Nat) → Field × RegisterOutcome
  | [] => (field, RegisterOutcome.noneReturn)
  | ship :: rest =>
    if cellIdx ∈ ship then
      if ship.any (fun c => field.getD c FieldCell.WATER == FieldCell.SHIP) then
        (field, RegisterOutcome.ret Shot.HIT)
      else
        (markCells field ship FieldCell.SUNKEN, RegisterOutcome.ret Shot.SUNK)
    else registerLoop field cellIdx rest

/-- `register_hit` from src/main.py.  The `assert` failure and the implicit
`None` return are kept explicit in the outcome. -/
def register_hit (field : Field) (ships : List (List Nat)) (cellIdx : Nat) :
    Field × RegisterOutcome :=
  let cell := field.getD cellIdx FieldCell.WATER
  if cell = FieldCell.WATER then
    (field.set cellIdx FieldCell.MISS, RegisterOutcome.ret Shot.MISS)
  else if cell = FieldCell.SHIP then
    registerLoop (field.set cellIdx FieldCell.DEBRIS) cellIdx ships
  else (field, RegisterOutcome.assertFail)

/-- `_is_sunken_ship_in_proximity` from src/main.py: does the 3×3
neighborhood of `(cellX, cellY)`, clipped to the grid, contain a `SUNKEN`
cell? -/
def _is_sunken_ship_in_proximity (field : Field) (cellX cellY fieldSize : Nat) : Bool :=
  (rectCells (max (cellY - 1) 0) (min (cellY + 2) fieldSize)
      (max (cellX - 1) 0) (min (cellX + 2) fieldSize)).any
    fun p => field.getD (p.1 * fieldSize + p.2) FieldCell.WATER == FieldCell.SUNKEN

/-- The candidate list swept by `decide_random_shot`: row-major cells that
are not `MISS`/`DEBRIS`, where a `SHIP` cell is taken unconditionally and
any other cell only when no sunken ship is in proximity. -/
def potentialRandomTargets (field : Field) (fieldSize : Nat) : List Nat :=
  (List.range fieldSize).flatMap fun i =>
    (List.range fieldSize).filterMap fun j =>
      let cellIdx := i * fieldSize + j
      let cell := field.getD cellIdx FieldCell.WATER
      if cell = FieldCell.MISS ∨ cell = FieldCell.DEBRIS then none
      else if cell = FieldCell.SHIP then some cellIdx
      else if _is_sunken_ship_in_proximity field j i fieldSize then none
      else some cellIdx

/-- `decide_random_shot` from src/main.py; `none` models the raised
`BattleshipException` when no candidate exists. -/
def decide_random_shot (field : Field) (fieldSize pick : Nat) : Option Nat :=
  match potentialRandomTargets field fieldSize with
  | [] => none
  | t :: rest =>
    some ((t :: rest).get ⟨pick % (t :: rest).length, Nat.mod_lt _ (Nat.succ_pos _)⟩)

/-- The empty-pool branch of `make_recommendations` on a hit at `(i, j)`
(src/main.py lines 234-245): the four axis-adjacent neighbors of the hit,
dropping those out of bounds and those already `MISS`/`SUNKEN`/`DEBRIS`.
The source's possibly negative neighbor coordinates are kept in `Int`, with
the same bound checks before converting back. -/
def freshHitPool (field : Field) (i j fieldSize : Nat) : List (Nat × Nat) :=
  ([((i : Int) + 1, (j : Int)), ((i : Int), (j : Int) + 1),
    ((i : Int) - 1, (j : Int)), ((i : Int), (j : Int) - 1)]).filterMap fun r =>
    if r.1 < 0 ∨ r.1 ≥ (fieldSize : Int) ∨ r.2 < 0 ∨ r.2 ≥ (fieldSize : Int) then none
    else
      let cell := field.getD (r.1.toNat * fieldSize + r.2.toNat) FieldCell.WATER
      if cell = FieldCell.MISS ∨ cell = FieldCell.SUNKEN ∨ cell = FieldCell.DEBRIS then
        none
      else some (r.1.toNat, r.2.toNat)

/-- The non-empty-pool branch of `make_recommendations` on a hit at `(i, j)`
(src/main.py lines 246-265): drop entries equal to the hit or sharing
neither axis with it; keep the others, each followed by the cell one step
past the hit in the entry's direction when it is in bounds. -/
def extendHitPool (pool : List (Nat × Nat)) (i j fieldSize : Nat) : List (Nat × Nat) :=
  pool.flatMap fun r =>
    if (r.1 = i ∧ r.2 = j) ∨ (r.2 ≠ j ∧ r.1 ≠ i) then []
    else
      let next : Int × Int :=
        if r.1 = i then
          if (j : Int) - (r.2 : Int) > 0 then ((i : Int), (j : Int) + 1)
          else ((i : Int), (j : Int) - 1)
        else
          if (i : Int) - (r.1 : Int) > 0 then ((i : Int) + 1, (j : Int))
          else ((i : Int) - 1, (j : Int))
      if next.1 < 0 ∨ next.1 ≥ (fieldSize : Int) ∨
          next.2 < 0 ∨ next.2 ≥ (fieldSize : Int) then
        [(r.1, r.2)]
      else [(r.1, r.2), (next.1.toNat, next.2.toNat)]

/-- `make_recommendations` from src/main.py.  Pool entries are `(row, col)`
pairs of naturals (the source only ever stores bound-checked coordinates). -/
def make_recommendations (field : Field) (pool : List (Nat × Nat))
    (cellIdx : Nat) (aiShot : Shot) (fieldSize : Nat) : List (Nat × Nat) :=
  if aiShot = Shot.MISS then pool
  else if aiShot = Shot.SUNK then []
  else
    let i := cellIdx / fieldSize
    let j := cellIdx % fieldSize
    if pool.isEmpty then freshHitPool field i j fieldSize
    else extendHitPool pool i j fieldSize

/-- The candidate list swept by `decide_recommended_shot`: pool entries
whose cell is not `MISS`/`SUNKEN`/`DEBRIS` and has no sunken ship in
proximity. -/
def recommendedTargets (field : Field) (pool : List (Nat × Nat))
    (fieldSize : Nat) : List Nat :=
  pool.filterMap fun r =>
    let cellIdx := r.1 * fieldSize + r.2
    let cell := field.getD cellIdx FieldCell.WATER
    if cell = FieldCell.MISS ∨ cell = FieldCell.SUNKEN ∨ cell = FieldCell.DEBRIS then none
    else if _is_sunken_ship_in_proximity field r.2 r.1 fieldSize then none
    else some cellIdx

/-- `decide_recommended_shot` from src/main.py; on an exhausted filtered
pool it falls back to `decide_random_shot` with the same injected pick. -/
def decide_recommended_shot (field : Field) (pool : List (Nat × Nat))
    (fieldSize pick : Nat) : Option Nat :=
  match recommendedTargets field pool fieldSize with
  | [] => decide_random_shot field fieldSize pick
  | t :: rest =>
    some ((t :: rest).get ⟨pick % (t :: rest).length, Nat.mod_lt _ (Nat.succ_pos _)⟩)

/-- `|u - v| ≤ 1` on naturals. -/
def near1 (u v : Nat) : Prop := u ≤ v + 1 ∧ v ≤ u + 1

instance (u v : Nat) : Decidable (near1 u v) :=
  inferInstanceAs (Decidable (u ≤ v + 1 ∧ v ≤ u + 1))

/-- Cell indices `a` and `b` coincide or are 8-neighbors on a grid of width
`fieldSize`. -/
def adjacent8 (fieldSize a b : Nat) : Prop :=
  near1 (a / fieldSize) (b / fieldSize) ∧ near1 (a % fieldSize) (b % fieldSize)

instance (fieldSize a b : Nat) : Decidable (adjacent8 fieldSize a b) :=
  inferInstanceAs (Decidable (near1 _ _ ∧ near1 _ _))

/-! ### Reading and writing single cells -/

theorem getD_set (l : Field) (i j : Nat) (v d : FieldCell) :
    (l.set i v).getD j d = if i = j ∧ i < l.length then v else l.getD j d := by
  by_cases hij : i = j
  · subst hij
    by_cases hlen : i < l.length
    · simp [List.getD_eq_getElem?_getD, List.getElem?_set, hlen]
    · rw [List.set_eq_of_length_le (Nat.le_of_not_lt hlen)]
      simp [hlen]
  · simp [List.getD_eq_getElem?_getD, List.getElem?_set, hij]

theorem lt_length_of_getD_ne (l : Field) (i : Nat) (d : FieldCell)
    (h : l.getD i d ≠ d) : i < l.length := by
  by_contra hge
  rw [List.getD_eq_getElem?_getD, List.getElem?_eq_none (Nat.le_of_not_lt hge)] at h
  exact h rfl

theorem markCells_length (cells : List Nat) (f : Field) (v : FieldCell) :
    (markCells f cells v).length = f.length := by
  induction cells generalizing f with
  | nil => rfl
  | cons a s ih =>
    show (markCells (f.set a v) s v).length = _
    rw [ih, List.length_set]

theorem getD_markCells_not_mem :
    ∀ (cells : List Nat) (c : Nat), c ∉ cells → ∀ (f : Field) (v d : FieldCell),
      (markCells f cells v).getD c d = f.getD c d := by
  intro cells
  induction cells with
  | nil => intro c _ f v d; rfl
  | cons a s ih =>
    intro c h f v d
    have hne : a ≠ c := fun he => h (he ▸ List.mem_cons_self a s)
    have hns : c ∉ s := fun hc => h (List.mem_cons_of_mem _ hc)
    show (markCells (f.set a v) s v).getD c d = _
    rw [ih c hns, getD_set, if_neg (fun hh => hne hh.1)]

theorem getD_markCells_mem :
    ∀ (cells : List Nat) (c : Nat), c ∈ cells → ∀ (f : Field) (v d : FieldCell),
      c < f.length → (markCells f cells v).getD c d = v := by
  intro cells
  induction cells with
  | nil => intro c h; cases h
  | cons a s ih =>
    intro c h f v d hlt
    show (markCells (f.set a v) s v).getD c d = v
    by_cases hs : c ∈ s
    · exact ih c hs (f.set a v) v d (by rw [List.length_set]; exact hlt)
    · have hac : a = c := by
        rcases List.mem_cons.mp h with h1 | h2
        · exact h1.symm
        · exact absurd h2 hs
      rw [getD_markCells_not_mem s c hs, getD_set, if_pos ⟨hac, hac ▸ hlt⟩]

/-! ### The shot-registration loop -/

theorem registerLoop_cons (f : Field) (c : Nat) (ship : List Nat) (rest : List (List Nat)) :
    registerLoop f c (ship :: rest) =
      if c ∈ ship then
        if ship.any (fun x => f.getD x FieldCell.WATER == FieldCell.SHIP) then
          (f, RegisterOutcome.ret Shot.HIT)
        else (markCells f ship FieldCell.SUNKEN, RegisterOutcome.ret Shot.SUNK)
      else registerLoop f c rest := rfl

theorem register_hit_eq (field : Field) (ships : List (List Nat)) (cellIdx : Nat) :
    register_hit field ships cellIdx =
      if field.getD cellIdx FieldCell.WATER = FieldCell.WATER then
        (field.set cellIdx FieldCell.MISS, RegisterOutcome.ret Shot.MISS)
      else if field.getD cellIdx FieldCell.WATER = FieldCell.SHIP then
        registerLoop (field.set cellIdx FieldCell.DEBRIS) cellIdx ships
      else (field, RegisterOutcome.assertFail) := rfl

theorem registerLoop_ret_of_mem (f : Field) (c : Nat) :
    ∀ ships : List (List Nat), (∃ s ∈ ships, c ∈ s) →
      ∃ r : Shot, (registerLoop f c ships).2 = RegisterOutcome.ret r := by
  intro ships
  induction ships with
  | nil => rintro ⟨s, hs, -⟩; cases hs
  | cons s rest ih =>
    rintro ⟨t, ht, hct⟩
    by_cases hc : c ∈ s
    · by_cases ha : (s.any fun x => f.getD x FieldCell.WATER == FieldCell.SHIP) = true
      · exact ⟨Shot.HIT, by rw [registerLoop_cons, if_pos hc, if_pos ha]⟩
      · exact ⟨Shot.SUNK, by rw [registerLoop_cons, if_pos hc, if_neg ha]⟩
    · rcases List.mem_cons.mp ht with rfl | ht'
      · exact absurd hct hc
      · rw [registerLoop_cons, if_neg hc]
        exact ih ⟨t, ht', hct⟩

theorem registerLoop_none_of_not_mem (f : Field) (c : Nat) :
    ∀ ships : List (List Nat), (∀ s ∈ ships, c ∉ s) →
      registerLoop f c ships = (f, RegisterOutcome.noneReturn) := by
  intro ships
  induction ships with
  | nil => intro _; rfl
  | cons s rest ih =>
    intro h
    rw [registerLoop_cons, if_neg (h s (List.mem_cons_self s rest))]
    exact ih fun t ht => h t (List.mem_cons_of_mem _ ht)

theorem registerLoop_find (f : Field) (c : Nat) :
    ∀ (ships : List (List Nat)) (ship : List Nat),
      ships.find? (fun s => decide (c ∈ s)) = some ship →
      registerLoop f c ships =
        if ship.any (fun x => f.getD x FieldCell.WATER == FieldCell.SHIP) then
          (f, RegisterOutcome.ret Shot.HIT)
        else (markCells f ship FieldCell.SUNKEN, RegisterOutcome.ret Shot.SUNK) := by
  intro ships
  induction ships with
  | nil => intro ship h; simp [List.find?] at h
  | cons s rest ih =>
    intro ship h
    by_cases hc : c ∈ s
    · simp only [List.find?_cons, decide_eq_true hc, Option.some.injEq] at h
      subst h
      rw [registerLoop_cons, if_pos hc]
    · simp only [List.find?_cons, decide_eq_false hc] at h
      rw [registerLoop_cons, if_neg hc]
      exact ih ship h

/-- C8: `register_hit` on a `Water` cell returns `Miss`, sets exactly that
cell to `Miss`, and leaves every other cell of the grid unchanged. -/
theorem register_hit_water (field : Field) (ships : List (List Nat)) (cellIdx : Nat)
    (hlt : cellIdx < field.length)
    (hW : field.getD cellIdx FieldCell.WATER = FieldCell.WATER) :
    register_hit field ships cellIdx =
      (field.set cellIdx FieldCell.MISS, RegisterOutcome.ret Shot.MISS) ∧
    (register_hit field ships cellIdx).1.getD cellIdx FieldCell.WATER = FieldCell.MISS ∧
    ∀ j, j ≠ cellIdx →
      (register_hit field ships cellIdx).1.getD j FieldCell.WATER =
        field.getD j FieldCell.WATER := by
  have h1 : register_hit field ships cellIdx =
      (field.set cellIdx FieldCell.MISS, RegisterOutcome.ret Shot.MISS) := by
    rw [register_hit_eq, if_pos hW]
  refine ⟨h1, ?_, ?_⟩
  · rw [h1]
    show (field.set cellIdx FieldCell.MISS).getD cellIdx FieldCell.WATER = FieldCell.MISS
    rw [getD_set, if_pos ⟨rfl, hlt⟩]
  · intro j hj
    rw [h1]
    show (field.set cellIdx FieldCell.MISS).getD j FieldCell.WATER = _
    rw [getD_set, if_neg (fun hh => hj hh.1.symm)]

theorem register_hit_water_witness :
    register_hit [FieldCell.WATER, FieldCell.SHIP] [[1]] 0 =
      (([FieldCell.WATER, FieldCell.SHIP] : Field).set 0 FieldCell.MISS,
        RegisterOutcome.ret Shot.MISS) ∧
    (register_hit [FieldCell.WATER, FieldCell.SHIP] [[1]] 0).1.getD 0 FieldCell.WATER =
      FieldCell.MISS ∧
    ∀ j, j ≠ 0 →
      (register_hit [FieldCell.WATER, FieldCell.SHIP] [[1]] 0).1.getD j FieldCell.WATER =
        ([FieldCell.WATER, FieldCell.SHIP] : Field).getD j FieldCell.WATER :=
  register_hit_water [FieldCell.WATER, FieldCell.SHIP] [[1]] 0 (by decide) (by decide)

/-- C9: `register_hit` is total exactly under its documented precondition:
`Water`, or `Ship` owned by some fleet ship, yields an explicit `Shot`
return and the `assert` never fails; `Ship` owned by no fleet ship falls
off the loop and returns no classification (Python `None`); `Miss`,
`Debris` or `Sunk` makes the `assert` fail. -/
theorem register_hit_totality (field : Field) (ships : List (List Nat)) (cellIdx : Nat) :
    ((field.getD cellIdx FieldCell.WATER = FieldCell.WATER ∨
        (field.getD cellIdx FieldCell.WATER = FieldCell.SHIP ∧ ∃ s ∈ ships, cellIdx ∈ s)) →
      ∃ r : Shot, (register_hit field ships cellIdx).2 = RegisterOutcome.ret r) ∧
    ((field.getD cellIdx FieldCell.WATER = FieldCell.SHIP ∧ ∀ s ∈ ships, cellIdx ∉ s) →
      (register_hit field ships cellIdx).2 = RegisterOutcome.noneReturn) ∧
    ((field.getD cellIdx FieldCell.WATER = FieldCell.MISS ∨
        field.getD cellIdx FieldCell.WATER = FieldCell.DEBRIS ∨
        field.getD cellIdx FieldCell.WATER = FieldCell.SUNKEN) →
      (register_hit field ships cellIdx).2 = RegisterOutcome.assertFail) := by
  refine ⟨?_, ?_, ?_⟩
  · rintro (hW | ⟨hS, hmem⟩)
    · exact ⟨Shot.MISS, by rw [register_hit_eq, if_pos hW]⟩
    · have heq : register_hit field ships cellIdx =
          registerLoop (field.set cellIdx FieldCell.DEBRIS) cellIdx ships := by
        rw [register_hit_eq, if_neg (by rw [hS]; intro h; cases h), if_pos hS]
      rw [heq]
      exact registerLoop_ret_of_mem _ _ ships hmem
  · rintro ⟨hS, hnone⟩
    have heq : register_hit field ships cellIdx =
        registerLoop (field.set cellIdx FieldCell.DEBRIS) cellIdx ships := by
      rw [register_hit_eq, if_neg (by rw [hS]; intro h; cases h), if_pos hS]
    rw [heq, registerLoop_none_of_not_mem _ _ ships hnone]
  · rintro (h | h | h) <;>
      rw [register_hit_eq, if_neg (by rw [h]; intro hx; cases hx),
        if_neg (by rw [h]; intro hx; cases hx)]

theorem register_hit_totality_witness :
    (∃ r : Shot, (register_hit [FieldCell.SHIP] [[0]] 0).2 = RegisterOutcome.ret r) ∧
    (register_hit [FieldCell.SHIP] [] 0).2 = RegisterOutcome.noneReturn ∧
    (register_hit [FieldCell.MISS] [] 0).2 = RegisterOutcome.assertFail :=
  ⟨(register_hit_totality [FieldCell.SHIP] [[0]] 0).1
      (Or.inr ⟨by decide, [0], by decide, by decide⟩),
   (register_hit_totality [FieldCell.SHIP] [] 0).2.1 ⟨by decide, by decide⟩,
   (register_hit_totality [FieldCell.MISS] [] 0).2.2 (Or.inl (by decide))⟩

/-- C1: on a `Ship` cell owned by a fleet ship, `register_hit` sets the cell
to `Debris` and then returns `Hit` while some cell of the owning ship is
still `Ship`, and otherwise marks the whole ship `Sunk` and returns
`Sunk`. -/
theorem register_hit_ship (field : Field) (ships : List (List Nat)) (cellIdx : Nat)
    (ship : List Nat)
    (hS : field.getD cellIdx FieldCell.WATER = FieldCell.SHIP)
    (hfind : ships.find? (fun s => decide (cellIdx ∈ s)) = some ship)
    (hb : ∀ c ∈ ship, c < field.length) :
    ((∃ c ∈ ship,
        (field.set cellIdx FieldCell.DEBRIS).getD c FieldCell.WATER = FieldCell.SHIP) →
      register_hit field ships cellIdx =
        (field.set cellIdx FieldCell.DEBRIS, RegisterOutcome.ret Shot.HIT) ∧
      (register_hit field ships cellIdx).1.getD cellIdx FieldCell.WATER =
        FieldCell.DEBRIS) ∧
    ((∀ c ∈ ship,
        (field.set cellIdx FieldCell.DEBRIS).getD c FieldCell.WATER ≠ FieldCell.SHIP) →
      register_hit field ships cellIdx =
        (markCells (field.set cellIdx FieldCell.DEBRIS) ship FieldCell.SUNKEN,
          RegisterOutcome.ret Shot.SUNK) ∧
      ∀ c ∈ ship,
        (register_hit field ships cellIdx).1.getD c FieldCell.WATER = FieldCell.SUNKEN) := by
  have hlt : cellIdx < field.length := by
    refine lt_length_of_getD_ne field cellIdx FieldCell.WATER ?_
    rw [hS]
    intro h
    cases h
  have hmain : register_hit field ships cellIdx =
      registerLoop (field.set cellIdx FieldCell.DEBRIS) cellIdx ships := by
    rw [register_hit_eq, if_neg (by rw [hS]; intro h; cases h), if_pos hS]
  have hloop := registerLoop_find (field.set cellIdx FieldCell.DEBRIS) cellIdx ships ship hfind
  constructor
  · rintro ⟨c, hc, hcS⟩
    have hany : (ship.any fun x =>
        (field.set cellIdx FieldCell.DEBRIS).getD x FieldCell.WATER == FieldCell.SHIP) = true :=
      List.any_eq_true.mpr ⟨c, hc, by rw [beq_iff_eq]; exact hcS⟩
    have h1 : register_hit field ships cellIdx =
        (field.set cellIdx FieldCell.DEBRIS, RegisterOutcome.ret Shot.HIT) := by
      rw [hmain, hloop, if_pos hany]
    refine ⟨h1, ?_⟩
    rw [h1]
    show (field.set cellIdx FieldCell.DEBRIS).getD cellIdx FieldCell.WATER = _
    rw [getD_set, if_pos ⟨rfl, hlt⟩]
  · intro hall
    have hany : (ship.any fun x =>
        (field.set cellIdx FieldCell.DEBRIS).getD x FieldCell.WATER == FieldCell.SHIP) = false := by
      rw [List.any_eq_false]
      intro x hx
      rw [beq_iff_eq]
      exact hall x hx
    have h1 : register_hit field ships cellIdx =
        (markCells (field.set cellIdx FieldCell.DEBRIS) ship FieldCell.SUNKEN,
          RegisterOutcome.ret Shot.SUNK) := by
      rw [hmain, hloop, if_neg (by rw [hany]; exact Bool.false_ne_true)]
    refine ⟨h1, ?_⟩
    intro c hc
    rw [h1]
    show (markCells (field.set cellIdx FieldCell.DEBRIS) ship FieldCell.SUNKEN).getD c
        FieldCell.WATER = _
    exact getD_markCells_mem ship c hc _ _ _ (by rw [List.length_set]; exact hb c hc)

/-- The scenario field: a 3-long horizontal ship at cells 5, 6, 7 on an
otherwise empty 10×10 field, then the fields after hitting 5 and 6. -/
def scenarioField0 : Field :=
  (((List.replicate 100 FieldCell.WATER).set 5 FieldCell.SHIP).set 6
      FieldCell.SHIP).set 7 FieldCell.SHIP

def scenarioField1 : Field := (register_hit scenarioField0 [[5, 6, 7]] 5).1

def scenarioField2 : Field := (register_hit scenarioField1 [[5, 6, 7]] 6).1

theorem register_hit_ship_witness :
    (register_hit scenarioField0 [[5, 6, 7]] 5).2 = RegisterOutcome.ret Shot.HIT ∧
    (register_hit scenarioField1 [[5, 6, 7]] 6).2 = RegisterOutcome.ret Shot.HIT ∧
    (register_hit scenarioField2 [[5, 6, 7]] 7).2 = RegisterOutcome.ret Shot.SUNK ∧
    (register_hit scenarioField2 [[5, 6, 7]] 7).1.getD 5 FieldCell.WATER =
      FieldCell.SUNKEN ∧
    (register_hit scenarioField2 [[5, 6, 7]] 7).1.getD 6 FieldCell.WATER =
      FieldCell.SUNKEN ∧
    (register_hit scenarioField2 [[5, 6, 7]] 7).1.getD 7 FieldCell.WATER =
      FieldCell.SUNKEN := by
  have h1 := (register_hit_ship scenarioField0 [[5, 6, 7]] 5 [5, 6, 7]
    (by decide) (by decide) (by decide)).1 (by decide)
  have h2 := (register_hit_ship scenarioField1 [[5, 6, 7]] 6 [5, 6, 7]
    (by decide) (by decide) (by decide)).1 (by decide)
  have h3 := (register_hit_ship scenarioField2 [[5, 6, 7]] 7 [5, 6, 7]
    (by decide) (by decide) (by decide)).2 (by decide)
  exact ⟨by rw [h1.1], by rw [h2.1], by rw [h3.1], h3.2 5 (by decide),
    h3.2 6 (by decide), h3.2 7 (by decide)⟩

/-! ### The recommendation engine -/

theorem make_recommendations_miss (field : Field) (pool : List (Nat × Nat))
    (cellIdx fieldSize : Nat) :
    make_recommendations field pool cellIdx Shot.MISS fieldSize = pool := rfl

theorem make_recommendations_sunk (field : Field) (pool : List (Nat × Nat))
    (cellIdx fieldSize : Nat) :
    make_recommendations field pool cellIdx Shot.SUNK fieldSize = [] := rfl

theorem make_recommendations_hit_nil (field : Field) (cellIdx fieldSize : Nat) :
    make_recommendations field [] cellIdx Shot.HIT fieldSize =
      freshHitPool field (cellIdx / fieldSize) (cellIdx % fieldSize) fieldSize := rfl

theorem make_recommendations_hit_cons (field : Field) (r : Nat × Nat)
    (pool : List (Nat × Nat)) (cellIdx fieldSize : Nat) :
    make_recommendations field (r :: pool) cellIdx Shot.HIT fieldSize =
      extendHitPool (r :: pool) (cellIdx / fieldSize) (cellIdx % fieldSize) fieldSize := rfl

/-- Modelled from the spec, C5 wording: keep each pool entry that shares the
hit's row or the hit's column but not both, and after each kept entry append
the cell one step beyond the hit along the shared axis in the direction
leading from the entry through the hit, omitting the extrapolated cell when
it lies out of bounds. -/
def claimHitPoolUpdate (pool : List (Nat × Nat)) (i j fieldSize : Nat) :
    List (Nat × Nat) :=
  pool.flatMap fun r =>
    if (r.1 = i ∧ r.2 ≠ j) ∨ (r.1 ≠ i ∧ r.2 = j) then
      let beyond : Int × Int :=
        if r.1 = i then
          if r.2 < j then ((i : Int), (j : Int) + 1) else ((i : Int), (j : Int) - 1)
        else
          if r.1 < i then ((i : Int) + 1, (j : Int)) else ((i : Int) - 1, (j : Int))
      (r.1, r.2) ::
        (if 0 ≤ beyond.1 ∧ beyond.1 < (fieldSize : Int) ∧
            0 ≤ beyond.2 ∧ beyond.2 < (fieldSize : Int) then
          [(beyond.1.toNat, beyond.2.toNat)]
        else [])
    else []

theorem keep_extrap_eq (a b : Nat) (x y : Int) (fieldSize : Nat) :
    (if x < 0 ∨ x ≥ (fieldSize : Int) ∨ y < 0 ∨ y ≥ (fieldSize : Int) then [(a, b)]
     else [(a, b), (x.toNat, y.toNat)]) =
      (a, b) :: (if 0 ≤ x ∧ x < (fieldSize : Int) ∧ 0 ≤ y ∧ y < (fieldSize : Int)
        then [(x.toNat, y.toNat)] else []) := by
  by_cases h : x < 0 ∨ x ≥ (fieldSize : Int) ∨ y < 0 ∨ y ≥ (fieldSize : Int)
  · rw [if_pos h, if_neg (by omega)]
  · rw [if_neg h, if_pos (by omega)]

theorem extendHitPool_eq_claim (pool : List (Nat × Nat)) (i j fieldSize : Nat) :
    extendHitPool pool i j fieldSize = claimHitPoolUpdate pool i j fieldSize := by
  unfold extendHitPool claimHitPoolUpdate
  congr 1
  funext r
  obtain ⟨a, b⟩ := r
  dsimp only
  split_ifs <;> first | rfl | omega

/-- C5: on a `Hit` with a non-empty pool, `make_recommendations` returns
exactly the pool the spec describes: entries sharing exactly one axis with
the hit are kept (entries equal to the hit or sharing neither axis are
discarded), each kept entry followed by the in-bounds extrapolation one
step beyond the hit along the shared axis. -/
theorem make_recommendations_hit_pool (field : Field) (pool : List (Nat × Nat))
    (cellIdx fieldSize : Nat) (hne : pool ≠ []) :
    make_recommendations field pool cellIdx Shot.HIT fieldSize =
      claimHitPoolUpdate pool (cellIdx / fieldSize) (cellIdx % fieldSize) fieldSize := by
  obtain ⟨r, pool2, rfl⟩ : ∃ r pool2, pool = r :: pool2 := by
    cases pool with
    | nil => exact absurd rfl hne
    | cons a l => exact ⟨a, l, rfl⟩
  rw [make_recommendations_hit_cons]
  exact extendHitPool_eq_claim _ _ _ _

theorem make_recommendations_hit_pool_witness :
    make_recommendations (List.replicate 100 FieldCell.WATER)
        [(4, 4), (3, 5), (7, 2), (4, 5)] 45 Shot.HIT 10 =
      claimHitPoolUpdate [(4, 4), (3, 5), (7, 2), (4, 5)] 4 5 10 :=
  make_recommendations_hit_pool (List.replicate 100 FieldCell.WATER)
    [(4, 4), (3, 5), (7, 2), (4, 5)] 45 10 (by decide)

/-- Modelled from the spec, C7 wording: the four axis-adjacent neighbors of
the hit (row±1 at same column, then column±1 at same row, the order of the
spec scenario), dropping those out of bounds and those whose state is
`Miss`, `Sunk` or `Debris`. -/
def claimFreshHitPool (field : Field) (cellIdx fieldSize : Nat) : List (Nat × Nat) :=
  ([(((cellIdx / fieldSize : Nat) : Int) + 1, ((cellIdx % fieldSize : Nat) : Int)),
    (((cellIdx / fieldSize : Nat) : Int) - 1, ((cellIdx % fieldSize : Nat) : Int)),
    (((cellIdx / fieldSize : Nat) : Int), ((cellIdx % fieldSize : Nat) : Int) + 1),
    (((cellIdx / fieldSize : Nat) : Int), ((cellIdx % fieldSize : Nat) : Int) - 1)]).filterMap
    fun r =>
    if r.1 < 0 ∨ r.1 ≥ (fieldSize : Int) ∨ r.2 < 0 ∨ r.2 ≥ (fieldSize : Int) then none
    else
      let cell := field.getD (r.1.toNat * fieldSize + r.2.toNat) FieldCell.WATER
      if cell = FieldCell.MISS ∨ cell = FieldCell.SUNKEN ∨ cell = FieldCell.DEBRIS then
        none
      else some (r.1.toNat, r.2.toNat)

/-- C7: on a `Hit` with an empty pool, `make_recommendations` returns, as a
set, the four axis-adjacent neighbors of the hit filtered for bounds and
for already-shot states; in particular a fresh hit at `(4, 5)` on an empty
10×10 grid yields `[(5,5),(4,6),(3,5),(4,4)]`, which as a set is the spec's
`[(5,5),(3,5),(4,6),(4,4)]`. -/
theorem make_recommendations_fresh_hit :
    (∀ (field : Field) (cellIdx fieldSize : Nat) (p : Nat × Nat),
      p ∈ make_recommendations field [] cellIdx Shot.HIT fieldSize ↔
        p ∈ claimFreshHitPool field cellIdx fieldSize) ∧
    make_recommendations (List.replicate 100 FieldCell.WATER) [] 45 Shot.HIT 10 =
      [(5, 5), (4, 6), (3, 5), (4, 4)] ∧
    (make_recommendations (List.replicate 100 FieldCell.WATER) [] 45 Shot.HIT 10).Perm
      [(5, 5), (3, 5), (4, 6), (4, 4)] := by
  refine ⟨?_, by decide, by decide⟩
  intro field cellIdx fieldSize p
  rw [make_recommendations_hit_nil]
  exact (List.Perm.filterMap _
    (List.Perm.cons _ (List.Perm.swap _ _ _))).mem_iff


theorem freshHitPool_mem {field : Field} {i j fieldSize : Nat} {p : Nat × Nat}
    (hp : p ∈ freshHitPool field i j fieldSize) :
    (p.1 < fieldSize ∧ p.2 < fieldSize) ∧ ¬(p.1 = i ∧ p.2 = j) := by
  unfold freshHitPool at hp
  rw [List.mem_filterMap] at hp
  obtain ⟨r, hr, heq⟩ := hp
  simp only [List.mem_cons, List.not_mem_nil, or_false] at hr
  rcases hr with rfl | rfl | rfl | rfl <;>
  · dsimp only at heq
    split_ifs at heq with hg hs
    have hpe := Option.some.inj heq
    subst hpe
    refine ⟨⟨?_, ?_⟩, ?_⟩ <;> dsimp only <;> omega

theorem extendHitPool_mem {pool : List (Nat × Nat)} {i j fieldSize : Nat} {p : Nat × Nat}
    (hb : ∀ q ∈ pool, q.1 < fieldSize ∧ q.2 < fieldSize)
    (hp : p ∈ extendHitPool pool i j fieldSize) :
    (p.1 < fieldSize ∧ p.2 < fieldSize) ∧ ¬(p.1 = i ∧ p.2 = j) := by
  unfold extendHitPool at hp
  rw [List.mem_flatMap] at hp
  obtain ⟨r, hr, hmem⟩ := hp
  obtain ⟨a, b⟩ := r
  have hab := hb (a, b) hr
  dsimp only at hmem hab
  split_ifs at hmem
  all_goals try dsimp only at *
  all_goals simp only [List.mem_cons, List.not_mem_nil, or_false] at hmem
  all_goals first
    | (rcases hmem with rfl | rfl <;> (refine ⟨⟨?_, ?_⟩, ?_⟩ <;> dsimp only <;> omega))
    | (rcases hmem with rfl
       refine ⟨⟨?_, ?_⟩, ?_⟩ <;> dsimp only <;> omega)

/-- C10: `make_recommendations` preserves pool well-formedness: a pool of
in-bounds entries is mapped to a pool of in-bounds entries, and on a `Hit`
no returned entry equals the hit cell's own coordinates. -/
theorem make_recommendations_wf (field : Field) (pool : List (Nat × Nat))
    (cellIdx : Nat) (aiShot : Shot) (fieldSize : Nat)
    (hb : ∀ p ∈ pool, p.1 < fieldSize ∧ p.2 < fieldSize) :
    (∀ p ∈ make_recommendations field pool cellIdx aiShot fieldSize,
        p.1 < fieldSize ∧ p.2 < fieldSize) ∧
    (aiShot = Shot.HIT →
      ∀ p ∈ make_recommendations field pool cellIdx aiShot fieldSize,
        ¬(p.1 = cellIdx / fieldSize ∧ p.2 = cellIdx % fieldSize)) := by
  cases aiShot with
  | MISS =>
    refine ⟨?_, fun h => absurd h (by decide)⟩
    rw [make_recommendations_miss]
    exact hb
  | SUNK =>
    refine ⟨?_, fun h => absurd h (by decide)⟩
    rw [make_recommendations_sunk]
    intro p hp
    exact absurd hp (List.not_mem_nil p)
  | HIT =>
    cases pool with
    | nil =>
      refine ⟨?_, fun _ => ?_⟩ <;> rw [make_recommendations_hit_nil]
      · exact fun p hp => (freshHitPool_mem hp).1
      · exact fun p hp => (freshHitPool_mem hp).2
    | cons r pool2 =>
      refine ⟨?_, fun _ => ?_⟩ <;> rw [make_recommendations_hit_cons]
      · exact fun p hp => (extendHitPool_mem hb hp).1
      · exact fun p hp => (extendHitPool_mem hb hp).2

theorem make_recommendations_wf_witness :
    (∀ p ∈ make_recommendations (List.replicate 4 FieldCell.WATER) [(0, 1)] 0 Shot.HIT 2,
        p.1 < 2 ∧ p.2 < 2) ∧
    (Shot.HIT = Shot.HIT →
      ∀ p ∈ make_recommendations (List.replicate 4 FieldCell.WATER) [(0, 1)] 0 Shot.HIT 2,
        ¬(p.1 = 0 / 2 ∧ p.2 = 0 % 2)) :=
  make_recommendations_wf (List.replicate 4 FieldCell.WATER) [(0, 1)] 0 Shot.HIT 2
    (by decide)


/-! ### Random targeting -/

theorem coord_div (i j fieldSize : Nat) (hj : j < fieldSize) :
    (i * fieldSize + j) / fieldSize = i := by
  have hpos : 0 < fieldSize := Nat.lt_of_le_of_lt (Nat.zero_le j) hj
  rw [Nat.add_comm, Nat.mul_comm, Nat.add_mul_div_left j i hpos, Nat.div_eq_of_lt hj]
  exact Nat.zero_add i

theorem coord_mod (i j fieldSize : Nat) (hj : j < fieldSize) :
    (i * fieldSize + j) % fieldSize = j := by
  rw [Nat.add_comm, Nat.add_mul_mod_self_right, Nat.mod_eq_of_lt hj]

theorem mem_potentialRandomTargets {field : Field} {fieldSize c : Nat}
    (hc : c ∈ potentialRandomTargets field fieldSize) :
    field.getD c FieldCell.WATER ≠ FieldCell.MISS ∧
    field.getD c FieldCell.WATER ≠ FieldCell.DEBRIS ∧
    (field.getD c FieldCell.WATER = FieldCell.SHIP ∨
      _is_sunken_ship_in_proximity field (c % fieldSize) (c / fieldSize) fieldSize
        = false) := by
  unfold potentialRandomTargets at hc
  rw [List.mem_flatMap] at hc
  obtain ⟨i, hi, hc⟩ := hc
  rw [List.mem_filterMap] at hc
  obtain ⟨j, hj, heq⟩ := hc
  rw [List.mem_range] at hi hj
  have hdiv := coord_div i j fieldSize hj
  have hmod := coord_mod i j fieldSize hj
  dsimp only at heq
  split_ifs at heq with h1 h2 h3
  · have hce := Option.some.inj heq
    subst hce
    exact ⟨fun h => h1 (Or.inl h), fun h => h1 (Or.inr h), Or.inl h2⟩
  · have hce := Option.some.inj heq
    subst hce
    refine ⟨fun h => h1 (Or.inl h), fun h => h1 (Or.inr h), Or.inr ?_⟩
    rw [hmod, hdiv]
    exact Bool.eq_false_iff.mpr h3

/-- C4 (amended): every cell returned by `decide_random_shot` is a
candidate of the code's sweep: not `Miss`, not `Debris`, and either still
`Ship` (which the code takes unconditionally, without the proximity check)
or not adjacent to a sunken ship. -/
theorem decide_random_shot_mem (field : Field) (fieldSize pick c : Nat)
    (h : decide_random_shot field fieldSize pick = some c) :
    field.getD c FieldCell.WATER ≠ FieldCell.MISS ∧
    field.getD c FieldCell.WATER ≠ FieldCell.DEBRIS ∧
    (field.getD c FieldCell.WATER = FieldCell.SHIP ∨
      _is_sunken_ship_in_proximity field (c % fieldSize) (c / fieldSize) fieldSize
        = false) := by
  unfold decide_random_shot at h
  cases hts : potentialRandomTargets field fieldSize with
  | nil =>
    rw [hts] at h
    exact absurd h (by simp)
  | cons t rest =>
    rw [hts] at h
    have hx := Option.some.inj h
    have hmem : c ∈ potentialRandomTargets field fieldSize := by
      rw [hts, ← hx]
      exact List.get_mem _ _ _
    exact mem_potentialRandomTargets hmem

theorem decide_random_shot_mem_witness :
    List.getD [FieldCell.SHIP] 0 FieldCell.WATER ≠ FieldCell.MISS ∧
    List.getD [FieldCell.SHIP] 0 FieldCell.WATER ≠ FieldCell.DEBRIS ∧
    (List.getD [FieldCell.SHIP] 0 FieldCell.WATER = FieldCell.SHIP ∨
      _is_sunken_ship_in_proximity [FieldCell.SHIP] (0 % 1) (0 / 1) 1 = false) :=
  decide_random_shot_mem [FieldCell.SHIP] 1 0 0 (by decide)

/-- C4 counterexample: on the grid `[SUNKEN, SHIP, WATER, WATER]` (size 2)
`decide_random_shot` returns cell 1, a `Ship` cell that is 8-adjacent to a
`Sunk` cell, so the claim that every returned cell has
`isAdjacentToSunkShip` false is violated. -/
theorem decide_random_shot_counterexample :
    decide_random_shot
        [FieldCell.SUNKEN, FieldCell.SHIP, FieldCell.WATER, FieldCell.WATER] 2 0 =
      some 1 ∧
    _is_sunken_ship_in_proximity
        [FieldCell.SUNKEN, FieldCell.SHIP, FieldCell.WATER, FieldCell.WATER]
        (1 % 2) (1 / 2) 2 = true := by decide

theorem decide_random_shot_eq_of_cons {field : Field} {fieldSize : Nat} {t : Nat}
    {rest : List Nat} (hts : potentialRandomTargets field fieldSize = t :: rest)
    (pick : Nat) :
    decide_random_shot field fieldSize pick =
      some ((t :: rest).get ⟨pick % (t :: rest).length, Nat.mod_lt _ (Nat.succ_pos _)⟩) := by
  unfold decide_random_shot
  rw [hts]

theorem decide_recommended_shot_eq_of_cons {field : Field} {pool : List (Nat × Nat)}
    {fieldSize : Nat} {t : Nat} {rest : List Nat}
    (hrt : recommendedTargets field pool fieldSize = t :: rest) (pick : Nat) :
    decide_recommended_shot field pool fieldSize pick =
      some ((t :: rest).get ⟨pick % (t :: rest).length, Nat.mod_lt _ (Nat.succ_pos _)⟩) := by
  unfold decide_recommended_shot
  rw [hrt]

theorem decide_random_shot_some (field : Field) (fieldSize pick : Nat)
    (h : ∃ idx, idx < fieldSize * fieldSize ∧
      (field.getD idx FieldCell.WATER = FieldCell.SHIP ∨
        (field.getD idx FieldCell.WATER = FieldCell.WATER ∧
          _is_sunken_ship_in_proximity field (idx % fieldSize) (idx / fieldSize) fieldSize
            = false))) :
    ∃ c, decide_random_shot field fieldSize pick = some c := by
  obtain ⟨idx, hidx, hgood⟩ := h
  have hpos : 0 < fieldSize := by
    rcases Nat.eq_zero_or_pos fieldSize with rfl | hpos
    · exact absurd hidx (by simp)
    · exact hpos
  have hj : idx % fieldSize < fieldSize := Nat.mod_lt idx hpos
  have hi : idx / fieldSize < fieldSize := Nat.div_lt_of_lt_mul hidx
  have hsum : (idx / fieldSize) * fieldSize + idx % fieldSize = idx := by
    rw [Nat.mul_comm]
    exact Nat.div_add_mod idx fieldSize
  have hmem : idx ∈ potentialRandomTargets field fieldSize := by
    unfold potentialRandomTargets
    rw [List.mem_flatMap]
    refine ⟨idx / fieldSize, List.mem_range.mpr hi, ?_⟩
    rw [List.mem_filterMap]
    refine ⟨idx % fieldSize, List.mem_range.mpr hj, ?_⟩
    dsimp only
    rw [hsum]
    rcases hgood with hship | ⟨hwater, hprox⟩
    · rw [if_neg (by rw [hship]; rintro (h | h) <;> cases h), if_pos hship]
    · rw [if_neg (by rw [hwater]; rintro (h | h) <;> cases h),
        if_neg (by rw [hwater]; intro h; cases h), if_neg (by rw [hprox]; simp)]
  cases hts : potentialRandomTargets field fieldSize with
  | nil => rw [hts] at hmem; exact absurd hmem (List.not_mem_nil idx)
  | cons t rest => exact ⟨_, decide_random_shot_eq_of_cons hts pick⟩

/-- C6 (amended): if every pool entry is filtered out (already-shot state
or sunken ship in proximity) then `decide_recommended_shot` agrees with
`decide_random_shot` on the same grid and pick, and
`decide_recommended_shot` always returns a cell as long as some cell of the
grid is still `Ship`, or is `Water` without a sunken ship in proximity. -/
theorem decide_recommended_shot_fallback (field : Field) (pool : List (Nat × Nat))
    (fieldSize pick : Nat) :
    ((∀ r ∈ pool,
        field.getD (r.1 * fieldSize + r.2) FieldCell.WATER = FieldCell.MISS ∨
        field.getD (r.1 * fieldSize + r.2) FieldCell.WATER = FieldCell.SUNKEN ∨
        field.getD (r.1 * fieldSize + r.2) FieldCell.WATER = FieldCell.DEBRIS ∨
        _is_sunken_ship_in_proximity field r.2 r.1 fieldSize = true) →
      decide_recommended_shot field pool fieldSize pick =
        decide_random_shot field fieldSize pick) ∧
    ((∃ idx, idx < fieldSize * fieldSize ∧
        (field.getD idx FieldCell.WATER = FieldCell.SHIP ∨
          (field.getD idx FieldCell.WATER = FieldCell.WATER ∧
            _is_sunken_ship_in_proximity field (idx % fieldSize) (idx / fieldSize)
              fieldSize = false))) →
      ∃ c, decide_recommended_shot field pool fieldSize pick = some c) := by
  constructor
  · intro hall
    have hnil : recommendedTargets field pool fieldSize = [] := by
      unfold recommendedTargets
      rw [List.filterMap_eq_nil]
      intro r hr
      dsimp only
      rcases hall r hr with h | h | h | h
      · rw [if_pos (Or.inl h)]
      · rw [if_pos (Or.inr (Or.inl h))]
      · rw [if_pos (Or.inr (Or.inr h))]
      · by_cases hstate : field.getD (r.1 * fieldSize + r.2) FieldCell.WATER = FieldCell.MISS ∨
            field.getD (r.1 * fieldSize + r.2) FieldCell.WATER = FieldCell.SUNKEN ∨
            field.getD (r.1 * fieldSize + r.2) FieldCell.WATER = FieldCell.DEBRIS
        · rw [if_pos hstate]
        · rw [if_neg hstate, if_pos h]
    unfold decide_recommended_shot
    rw [hnil]
  · intro hex
    cases hrt : recommendedTargets field pool fieldSize with
    | nil =>
      have h1 : decide_recommended_shot field pool fieldSize pick =
          decide_random_shot field fieldSize pick := by
        unfold decide_recommended_shot
        rw [hrt]
      rw [h1]
      exact decide_random_shot_some field fieldSize pick hex
    | cons t rest => exact ⟨_, decide_recommended_shot_eq_of_cons hrt pick⟩

/-- C6 counterexample: on the grid `[SUNKEN, MISS, MISS, WATER]` (size 2)
cell 3 is still `Water`, yet with a fully filtered-out (empty) pool
`decide_recommended_shot` falls back to `decide_random_shot`, which finds
no candidate and raises (modelled by `none`): the claim that it never
raises while a `Water`/`Ship` cell remains is violated. -/
theorem decide_recommended_shot_counterexample :
    decide_recommended_shot
        [FieldCell.SUNKEN, FieldCell.MISS, FieldCell.MISS, FieldCell.WATER] [] 2 0 =
      none ∧
    List.getD [FieldCell.SUNKEN, FieldCell.MISS, FieldCell.MISS, FieldCell.WATER] 3
      FieldCell.WATER = FieldCell.WATER := by decide

theorem decide_recommended_shot_fallback_witness :
    (decide_recommended_shot [FieldCell.SHIP] [] 1 0 =
      decide_random_shot [FieldCell.SHIP] 1 0) ∧
    (∃ c, decide_recommended_shot [FieldCell.SHIP] [] 1 0 = some c) :=
  ⟨(decide_recommended_shot_fallback [FieldCell.SHIP] [] 1 0).1
      (fun r hr => absurd hr (List.not_mem_nil r)),
   (decide_recommended_shot_fallback [FieldCell.SHIP] [] 1 0).2
      ⟨0, by decide, Or.inl (by decide)⟩⟩


/-! ### Field generation: geometry of valid placements -/

theorem mem_rectCells {sy ey sx ex : Nat} {p : Nat × Nat} :
    p ∈ rectCells sy ey sx ex ↔ (sy ≤ p.1 ∧ p.1 < ey) ∧ (sx ≤ p.2 ∧ p.2 < ex) := by
  unfold rectCells
  rw [List.mem_flatMap]
  constructor
  · rintro ⟨i, hi, hp⟩
    rw [List.mem_map] at hp
    obtain ⟨j, hj, rfl⟩ := hp
    rw [List.mem_range'_1] at hi hj
    dsimp only
    omega
  · rintro ⟨⟨h1, h2⟩, h3, h4⟩
    refine ⟨p.1, List.mem_range'_1.mpr ⟨h1, by omega⟩, ?_⟩
    rw [List.mem_map]
    exact ⟨p.2, List.mem_range'_1.mpr ⟨h3, by omega⟩, Prod.mk.eta⟩

theorem valid_x_spec {field : Field} {cellIdx deckLength fieldSize : Nat} {s : List Nat}
    (hs : _is_valid_x_ship_start field cellIdx deckLength fieldSize = s) (hne : s ≠ []) :
    cellIdx / fieldSize < fieldSize ∧
    cellIdx % fieldSize + deckLength ≤ fieldSize ∧
    s = (List.range' (cellIdx % fieldSize) deckLength).map
      (fun t => (cellIdx / fieldSize) * fieldSize + t) ∧
    ∀ b a : Nat, b < fieldSize → a < fieldSize →
      cellIdx / fieldSize ≤ b + 1 → b ≤ cellIdx / fieldSize + 1 →
      cellIdx % fieldSize ≤ a + 1 → a ≤ cellIdx % fieldSize + deckLength →
      field.getD (b * fieldSize + a) FieldCell.WATER = FieldCell.WATER := by
  unfold _is_valid_x_ship_start at hs
  dsimp only at hs
  split_ifs at hs with h1 h2 h3
  · exact absurd hs.symm hne
  · have hy : cellIdx / fieldSize < fieldSize := by omega
    have hpos : 0 < fieldSize := Nat.lt_of_le_of_lt (Nat.zero_le _) hy
    have hx : cellIdx % fieldSize < fieldSize := Nat.mod_lt _ hpos
    have hxd : cellIdx % fieldSize + deckLength ≤ fieldSize := by omega
    refine ⟨hy, hxd, hs.symm, ?_⟩
    intro b a hb ha hb1 hb2 ha1 ha2
    have hmem : (b, a) ∈ rectCells (max (cellIdx / fieldSize - 1) 0)
        (min (cellIdx / fieldSize + 2) fieldSize) (max (cellIdx % fieldSize - 1) 0)
        (min (cellIdx % fieldSize + deckLength + 1) fieldSize) := by
      rw [mem_rectCells]
      dsimp only
      omega
    have hw := List.all_eq_true.mp h2 (b, a) hmem
    dsimp only at hw
    rw [beq_iff_eq] at hw
    exact hw
  · exact absurd hs.symm hne
  · exact absurd hs.symm hne

theorem valid_y_spec {field : Field} {cellIdx deckLength fieldSize : Nat} {s : List Nat}
    (hs : _is_valid_y_ship_start field cellIdx deckLength fieldSize = s) (hne : s ≠ []) :
    cellIdx % fieldSize < fieldSize ∧
    cellIdx / fieldSize + deckLength ≤ fieldSize ∧
    s = (List.range' (cellIdx / fieldSize) deckLength).map
      (fun t => t * fieldSize + cellIdx % fieldSize) ∧
    ∀ b a : Nat, b < fieldSize → a < fieldSize →
      cellIdx / fieldSize ≤ b + 1 → b ≤ cellIdx / fieldSize + deckLength →
      cellIdx % fieldSize ≤ a + 1 → a ≤ cellIdx % fieldSize + 1 →
      field.getD (b * fieldSize + a) FieldCell.WATER = FieldCell.WATER := by
  unfold _is_valid_y_ship_start at hs
  dsimp only at hs
  split_ifs at hs with h1 h2 h3
  · exact absurd hs.symm hne
  · have hd : deckLength ≠ 0 := by
      rintro rfl
      exact hne hs.symm
    have hx : cellIdx % fieldSize < fieldSize := by omega
    have hyd : cellIdx / fieldSize + deckLength ≤ fieldSize := by omega
    refine ⟨hx, hyd, hs.symm, ?_⟩
    intro b a hb ha hb1 hb2 ha1 ha2
    have hmem : (b, a) ∈ rectCells (max (cellIdx / fieldSize - 1) 0)
        (min (cellIdx / fieldSize + deckLength + 1) fieldSize)
        (max (cellIdx % fieldSize - 1) 0)
        (min (cellIdx % fieldSize + 2) fieldSize) := by
      rw [mem_rectCells]
      dsimp only
      omega
    have hw := List.all_eq_true.mp h2 (b, a) hmem
    dsimp only at hw
    rw [beq_iff_eq] at hw
    exact hw
  · exact absurd hs.symm hne
  · exact absurd hs.symm hne

/-- What a successful validity check guarantees about a run `s`: it has
`deckLength` distinct in-bounds cells and every in-bounds cell that is
8-adjacent to (or equal to) a run cell is `WATER`. -/
structure RunOk (field : Field) (fieldSize deckLength : Nat) (s : List Nat) : Prop where
  len : s.length = deckLength
  nodup : s.Nodup
  bounds : ∀ c ∈ s, c < fieldSize * fieldSize
  nbhd : ∀ c ∈ s, ∀ b a : Nat, b < fieldSize → a < fieldSize →
    c / fieldSize ≤ b + 1 → b ≤ c / fieldSize + 1 →
    c % fieldSize ≤ a + 1 → a ≤ c % fieldSize + 1 →
    field.getD (b * fieldSize + a) FieldCell.WATER = FieldCell.WATER

theorem runOk_of_valid_x {field : Field} {cellIdx deckLength fieldSize : Nat}
    {s : List Nat}
    (hs : _is_valid_x_ship_start field cellIdx deckLength fieldSize = s) (hne : s ≠ []) :
    RunOk field fieldSize deckLength s := by
  obtain ⟨hy, hxd, hseq, hnb⟩ := valid_x_spec hs hne
  subst hseq
  refine ⟨?_, ?_, ?_, ?_⟩
  · rw [List.length_map, List.length_range']
  · exact List.Nodup.map (fun u v h => by omega) (List.nodup_range' _ _)
  · intro c hc
    rw [List.mem_map] at hc
    obtain ⟨t, ht, rfl⟩ := hc
    rw [List.mem_range'_1] at ht
    calc (cellIdx / fieldSize) * fieldSize + t
        < (cellIdx / fieldSize) * fieldSize + fieldSize := by omega
      _ = (cellIdx / fieldSize + 1) * fieldSize := by ring
      _ ≤ fieldSize * fieldSize := Nat.mul_le_mul_right _ hy
  · intro c hc b a hb ha h1 h2 h3 h4
    rw [List.mem_map] at hc
    obtain ⟨t, ht, rfl⟩ := hc
    rw [List.mem_range'_1] at ht
    rw [coord_div _ _ _ (by omega)] at h1 h2
    rw [coord_mod _ _ _ (by omega)] at h3 h4
    exact hnb b a hb ha h1 h2 (by omega) (by omega)

theorem runOk_of_valid_y {field : Field} {cellIdx deckLength fieldSize : Nat}
    {s : List Nat}
    (hs : _is_valid_y_ship_start field cellIdx deckLength fieldSize = s) (hne : s ≠ []) :
    RunOk field fieldSize deckLength s := by
  obtain ⟨hx, hyd, hseq, hnb⟩ := valid_y_spec hs hne
  subst hseq
  refine ⟨?_, ?_, ?_, ?_⟩
  · rw [List.length_map, List.length_range']
  · exact List.Nodup.map (fun u v h => by
      have : fieldSize > 0 := Nat.lt_of_le_of_lt (Nat.zero_le _) hx
      have h2 := congrArg (· / fieldSize) h
      dsimp only at h2
      rwa [coord_div _ _ _ hx, coord_div _ _ _ hx] at h2) (List.nodup_range' _ _)
  · intro c hc
    rw [List.mem_map] at hc
    obtain ⟨t, ht, rfl⟩ := hc
    rw [List.mem_range'_1] at ht
    calc t * fieldSize + cellIdx % fieldSize
        < t * fieldSize + fieldSize := by omega
      _ = (t + 1) * fieldSize := by ring
      _ ≤ fieldSize * fieldSize := Nat.mul_le_mul_right _ (by omega)
  · intro c hc b a hb ha h1 h2 h3 h4
    rw [List.mem_map] at hc
    obtain ⟨t, ht, rfl⟩ := hc
    rw [List.mem_range'_1] at ht
    rw [coord_div _ _ _ hx] at h1 h2
    rw [coord_mod _ _ _ hx] at h3 h4
    exact hnb b a hb ha (by omega) (by omega) h3 h4

theorem runOk_water {field : Field} {fieldSize deckLength : Nat} {s : List Nat}
    (h : RunOk field fieldSize deckLength s) :
    ∀ c ∈ s, field.getD c FieldCell.WATER = FieldCell.WATER := by
  intro c hc
  have hb := h.bounds c hc
  have hpos : 0 < fieldSize := by
    rcases Nat.eq_zero_or_pos fieldSize with rfl | hp
    · exact absurd hb (by simp)
    · exact hp
  have hdm : (c / fieldSize) * fieldSize + c % fieldSize = c := by
    rw [Nat.mul_comm]
    exact Nat.div_add_mod c fieldSize
  have := h.nbhd c hc (c / fieldSize) (c % fieldSize)
    (Nat.div_lt_of_lt_mul hb) (Nat.mod_lt _ hpos)
    (Nat.le_succ _) (Nat.le_succ _) (Nat.le_succ _) (Nat.le_succ _)
  rwa [hdm] at this


/-! ### Field generation: the placement invariant -/

theorem mem_possiblePlacements {field : Field} {deckLength fieldSize : Nat}
    {s : List Nat} (h : s ∈ possiblePlacements field deckLength fieldSize) :
    s ≠ [] ∧ ∃ cellIdx,
      _is_valid_x_ship_start field cellIdx deckLength fieldSize = s ∨
      _is_valid_y_ship_start field cellIdx deckLength fieldSize = s := by
  unfold possiblePlacements at h
  rw [List.mem_flatMap] at h
  obtain ⟨cellIdx, -, hmem⟩ := h
  rw [List.mem_append] at hmem
  rcases hmem with hx | hy
  · dsimp only at hx
    by_cases he : (_is_valid_x_ship_start field cellIdx deckLength fieldSize).isEmpty
    · rw [if_pos he] at hx
      exact absurd hx (List.not_mem_nil s)
    · rw [if_neg he] at hx
      rw [List.mem_singleton] at hx
      subst hx
      refine ⟨?_, cellIdx, Or.inl rfl⟩
      intro hnil
      exact he (by rw [hnil]; rfl)
  · dsimp only at hy
    by_cases he : (_is_valid_y_ship_start field cellIdx deckLength fieldSize).isEmpty
    · rw [if_pos he] at hy
      exact absurd hy (List.not_mem_nil s)
    · rw [if_neg he] at hy
      rw [List.mem_singleton] at hy
      subst hy
      refine ⟨?_, cellIdx, Or.inr rfl⟩
      intro hnil
      exact he (by rw [hnil]; rfl)

theorem generateStep_some {field : Field} {ships : List (List Nat)}
    {deckLength fieldSize pick : Nat} {st2 : Field × List (List Nat)}
    (h : generateStep field ships deckLength fieldSize pick = some st2) :
    ∃ s, RunOk field fieldSize deckLength s ∧
      st2.1 = markCells field s FieldCell.SHIP ∧ st2.2 = ships ++ [s] := by
  unfold generateStep at h
  cases hpc : possiblePlacements field deckLength fieldSize with
  | nil =>
    rw [hpc] at h
    exact absurd h (by simp)
  | cons s0 rest =>
    rw [hpc] at h
    have hx := Option.some.inj h
    set ship := (s0 :: rest).get
      ⟨pick % (s0 :: rest).length, Nat.mod_lt _ (Nat.succ_pos _)⟩ with hship
    have hmem : ship ∈ possiblePlacements field deckLength fieldSize := by
      rw [hpc]
      exact List.get_mem _ _ _
    obtain ⟨hne, cellIdx, hvx | hvy⟩ := mem_possiblePlacements hmem
    · exact ⟨ship, runOk_of_valid_x hvx hne, by rw [← hx], by rw [← hx]⟩
    · exact ⟨ship, runOk_of_valid_y hvy hne, by rw [← hx], by rw [← hx]⟩

/-- The invariant maintained by the placement loop: the grid has the right
size, every placed ship consists of distinct in-bounds cells marked `SHIP`,
distinct ships are never 8-adjacent (in particular never overlap), and the
number of `SHIP` cells is the total length of the placed ships. -/
structure GenInv (fieldSize : Nat) (st : Field × List (List Nat)) : Prop where
  len : st.1.length = fieldSize * fieldSize
  bounds : ∀ s ∈ st.2, ∀ c ∈ s, c < fieldSize * fieldSize
  shipCells : ∀ s ∈ st.2, ∀ c ∈ s, st.1.getD c FieldCell.WATER = FieldCell.SHIP
  nodups : ∀ s ∈ st.2, s.Nodup
  sep : st.2.Pairwise (fun s t => ∀ a ∈ s, ∀ b ∈ t, ¬adjacent8 fieldSize a b)
  countShip : st.1.count FieldCell.SHIP = (st.2.map List.length).sum

theorem count_set_ship :
    ∀ (f : Field) (a : Nat), a < f.length →
      f.getD a FieldCell.WATER ≠ FieldCell.SHIP →
      (f.set a FieldCell.SHIP).count FieldCell.SHIP = f.count FieldCell.SHIP + 1 := by
  intro f
  induction f with
  | nil => intro a ha; exact absurd ha (by simp)
  | cons x t ih =>
    intro a ha hw
    cases a with
    | zero =>
      have hx : x ≠ FieldCell.SHIP := hw
      simp [List.count_cons, hx]
    | succ n =>
      have hn : n < t.length := by simpa using ha
      have hw2 : t.getD n FieldCell.WATER ≠ FieldCell.SHIP := hw
      show ((x :: t.set n FieldCell.SHIP) : Field).count FieldCell.SHIP = _
      rw [List.count_cons, List.count_cons, ih n hn hw2]
      omega

theorem count_markCells_ship :
    ∀ (s : List Nat) (f : Field), s.Nodup →
      (∀ c ∈ s, c < f.length ∧ f.getD c FieldCell.WATER = FieldCell.WATER) →
      (markCells f s FieldCell.SHIP).count FieldCell.SHIP =
        f.count FieldCell.SHIP + s.length := by
  intro s
  induction s with
  | nil => intro f _ _; rfl
  | cons a t ih =>
    intro f hnd hw
    obtain ⟨hna, hndt⟩ := List.nodup_cons.mp hnd
    obtain ⟨haf, hwa⟩ := hw a (List.mem_cons_self a t)
    show (markCells (f.set a FieldCell.SHIP) t FieldCell.SHIP).count FieldCell.SHIP = _
    rw [ih (f.set a FieldCell.SHIP) hndt ?_]
    · rw [count_set_ship f a haf (by rw [hwa]; intro h; cases h)]
      simp [Nat.add_assoc, Nat.add_comm 1]
    · intro c hc
      obtain ⟨hcf, hwc⟩ := hw c (List.mem_cons_of_mem a hc)
      refine ⟨by rwa [List.length_set], ?_⟩
      rw [getD_set, if_neg ?_]
      · exact hwc
      · rintro ⟨rfl, -⟩
        exact hna hc

theorem adjacent8_refl (fieldSize a : Nat) : adjacent8 fieldSize a a :=
  ⟨⟨Nat.le_succ _, Nat.le_succ _⟩, ⟨Nat.le_succ _, Nat.le_succ _⟩⟩

theorem genInv_step {fieldSize deckLength pick : Nat} {st st2 : Field × List (List Nat)}
    (hInv : GenInv fieldSize st)
    (h : generateStep st.1 st.2 deckLength fieldSize pick = some st2) :
    GenInv fieldSize st2 ∧ st2.2.map List.length = st.2.map List.length ++ [deckLength] := by
  obtain ⟨s, hrun, hf2, hships2⟩ := generateStep_some h
  have hposOf : ∀ c : Nat, c < fieldSize * fieldSize → 0 < fieldSize := by
    intro c hc
    rcases Nat.eq_zero_or_pos fieldSize with rfl | hp
    · exact absurd hc (by simp)
    · exact hp
  have hsWater : ∀ c ∈ s, st.1.getD c FieldCell.WATER = FieldCell.WATER := runOk_water hrun
  have hcross : ∀ t ∈ st.2, ∀ a ∈ t, ∀ b ∈ s, ¬adjacent8 fieldSize a b := by
    intro t ht a ha b hb hadj
    have haB : a < fieldSize * fieldSize := hInv.bounds t ht a ha
    have hpos := hposOf a haB
    have hdm : (a / fieldSize) * fieldSize + a % fieldSize = a := by
      rw [Nat.mul_comm]
      exact Nat.div_add_mod a fieldSize
    have hW := hrun.nbhd b hb (a / fieldSize) (a % fieldSize)
      (Nat.div_lt_of_lt_mul haB) (Nat.mod_lt _ hpos)
      hadj.1.2 hadj.1.1 hadj.2.2 hadj.2.1
    rw [hdm] at hW
    have hS := hInv.shipCells t ht a ha
    rw [hS] at hW
    exact absurd hW (by intro hx; cases hx)
  have hdisj : ∀ c ∈ s, ∀ t ∈ st.2, c ∉ t := by
    intro c hc t ht hct
    exact hcross t ht c hct c hc (adjacent8_refl fieldSize c)
  refine ⟨⟨?_, ?_, ?_, ?_, ?_, ?_⟩, ?_⟩
  · rw [hf2, markCells_length, hInv.len]
  · intro t ht c hc
    rw [hships2, List.mem_append] at ht
    rcases ht with ht | ht
    · exact hInv.bounds t ht c hc
    · rw [List.mem_singleton] at ht
      subst ht
      exact hrun.bounds c hc
  · intro t ht c hc
    rw [hships2, List.mem_append] at ht
    rw [hf2]
    rcases ht with ht | ht
    · by_cases hcs : c ∈ s
      · exact getD_markCells_mem s c hcs _ _ _
          (by rw [hInv.len]; exact hInv.bounds t ht c hc)
      · rw [getD_markCells_not_mem s c hcs]
        exact hInv.shipCells t ht c hc
    · rw [List.mem_singleton] at ht
      subst ht
      exact getD_markCells_mem _ c hc _ _ _ (by rw [hInv.len]; exact hrun.bounds c hc)
  · intro t ht
    rw [hships2, List.mem_append] at ht
    rcases ht with ht | ht
    · exact hInv.nodups t ht
    · rw [List.mem_singleton] at ht
      subst ht
      exact hrun.nodup
  · rw [hships2, List.pairwise_append]
    refine ⟨hInv.sep, List.pairwise_singleton _ _, ?_⟩
    intro t ht u hu a ha b hb
    rw [List.mem_singleton] at hu
    subst hu
    exact hcross t ht a ha b hb
  · rw [hf2, hships2, count_markCells_ship s st.1 hrun.nodup
      (fun c hc => ⟨by rw [hInv.len]; exact hrun.bounds c hc, hsWater c hc⟩),
      hInv.countShip, List.map_append, List.sum_append]
    simp [hrun.len]
  · rw [hships2, List.map_append]
    simp [hrun.len]

theorem genInv_init (fieldSize : Nat) :
    GenInv fieldSize (List.replicate (fieldSize * fieldSize) FieldCell.WATER, []) := by
  refine ⟨?_, ?_, ?_, ?_, ?_, ?_⟩
  · exact List.length_replicate _ _
  · intro s hs; exact absurd hs (List.not_mem_nil s)
  · intro s hs; exact absurd hs (List.not_mem_nil s)
  · intro s hs; exact absurd hs (List.not_mem_nil s)
  · exact List.Pairwise.nil
  · rw [List.count_replicate]
    simp

theorem placeShips_inv (fieldSize : Nat) (picks : Nat → Nat) :
    ∀ (ls : List Nat) (n : Nat) (st st2 : Field × List (List Nat)),
      GenInv fieldSize st →
      placeShips fieldSize picks ls n st = some st2 →
      GenInv fieldSize st2 ∧ st2.2.map List.length = st.2.map List.length ++ ls := by
  intro ls
  induction ls with
  | nil =>
    intro n st st2 hInv h
    have hx := Option.some.inj h
    subst hx
    exact ⟨hInv, by simp⟩
  | cons L rest ih =>
    intro n st st2 hInv h
    simp only [placeShips] at h
    cases hg : generateStep st.1 st.2 L fieldSize (picks n) with
    | none =>
      rw [hg] at h
      exact absurd h (by simp)
    | some st1 =>
      rw [hg] at h
      obtain ⟨hInv1, hlen1⟩ := genInv_step hInv hg
      obtain ⟨hInv2, hlen2⟩ := ih (n + 1) st1 st2 hInv1 h
      refine ⟨hInv2, ?_⟩
      rw [hlen2, hlen1, List.append_assoc]
      rfl

theorem generate_field_inv {fieldSize maxDeckLength : Nat} {picks : Nat → Nat}
    {f : Field} {ships : List (List Nat)}
    (h : generate_field fieldSize maxDeckLength picks = some (f, ships)) :
    GenInv fieldSize (f, ships) ∧ ships.map List.length = shipPlacements maxDeckLength := by
  have hres := placeShips_inv fieldSize picks (shipPlacements maxDeckLength) 0
    (List.replicate (fieldSize * fieldSize) FieldCell.WATER, []) (f, ships)
    (genInv_init fieldSize) h
  simpa using hres


/-! ### The generation claims -/

/-- C2: in any successfully generated field, two distinct ships of the
fleet never share a cell and no cell of one ship is 8-adjacent to a cell of
another ship. -/
theorem generate_field_separated (fieldSize maxDeckLength : Nat) (picks : Nat → Nat)
    (f : Field) (ships : List (List Nat))
    (h : generate_field fieldSize maxDeckLength picks = some (f, ships)) :
    ships.Pairwise (fun s t =>
      (∀ a ∈ s, a ∉ t) ∧ (∀ a ∈ s, ∀ b ∈ t, ¬adjacent8 fieldSize a b)) := by
  have hsep := (generate_field_inv h).1.sep
  refine hsep.imp ?_
  intro s t hst
  refine ⟨?_, hst⟩
  intro a ha hat
  exact hst a ha a hat (adjacent8_refl fieldSize a)

/-- The grid produced by `generate_field 4 2` when every pick is 0: ships
`[[0, 1], [3], [8]]`. -/
def genField42 : Field :=
  [FieldCell.SHIP, FieldCell.SHIP, FieldCell.WATER, FieldCell.SHIP,
   FieldCell.WATER, FieldCell.WATER, FieldCell.WATER, FieldCell.WATER,
   FieldCell.SHIP, FieldCell.WATER, FieldCell.WATER, FieldCell.WATER,
   FieldCell.WATER, FieldCell.WATER, FieldCell.WATER, FieldCell.WATER]

theorem generate_field_separated_witness :
    ([[0, 1], [3], [8]] : List (List Nat)).Pairwise (fun s t =>
      (∀ a ∈ s, a ∉ t) ∧ (∀ a ∈ s, ∀ b ∈ t, ¬adjacent8 4 a b)) :=
  generate_field_separated 4 2 (fun _ => 0) genField42 [[0, 1], [3], [8]] (by decide)

theorem count_flatMap_replicate (g : Nat → Nat) (L : Nat) :
    ∀ l : List Nat, l.Nodup →
      (l.flatMap fun K => List.replicate (g K) K).count L =
        if L ∈ l then g L else 0 := by
  intro l
  induction l with
  | nil => intro _; simp
  | cons a t ih =>
    intro hnd
    obtain ⟨hna, hndt⟩ := List.nodup_cons.mp hnd
    rw [List.flatMap_cons, List.count_append, List.count_replicate, ih hndt]
    by_cases hLa : L = a
    · subst hLa
      rw [if_pos (beq_self_eq_true L), if_neg hna, if_pos (List.mem_cons_self L t)]
      omega
    · rw [if_neg (by simpa using Ne.symm hLa)]
      by_cases hLt : L ∈ t
      · rw [if_pos hLt, if_pos (List.mem_cons_of_mem a hLt)]
        omega
      · rw [if_neg hLt, if_neg (by
          rw [List.mem_cons]
          rintro (h | h)
          · exact hLa h
          · exact hLt h)]

theorem count_shipPlacements (maxDeckLength L : Nat) (h1 : 1 ≤ L)
    (h2 : L ≤ maxDeckLength) :
    (shipPlacements maxDeckLength).count L = maxDeckLength - L + 1 := by
  unfold shipPlacements
  rw [count_flatMap_replicate _ L _ (List.nodup_reverse.mpr (List.nodup_range' _ _))]
  rw [if_pos (by rw [List.mem_reverse, List.mem_range'_1]; omega)]
  omega

theorem filter_length_eq_count (ships : List (List Nat)) (L : Nat) :
    (ships.filter fun s => s.length == L).length = (ships.map List.length).count L := by
  induction ships with
  | nil => rfl
  | cons s t ih =>
    rw [List.filter_cons, List.map_cons, List.count_cons, ← ih]
    by_cases h : s.length = L
    · rw [if_pos (by simpa using h), if_pos (by simpa using h)]
      simp
    · rw [if_neg (by simpa using h), if_neg (by simpa using h)]
      simp

/-- C3: a successfully generated fleet has exactly `maxDeckLength - L + 1`
ships of each length `L ∈ [1, maxDeckLength]`; in particular for
`maxDeckLength = 4` it has 1 ship of length 4, 2 of length 3, 3 of length
2, 4 of length 1 — 10 ships and 20 `Ship` cells on the grid. -/
theorem generate_field_fleet (fieldSize maxDeckLength : Nat) (picks : Nat → Nat)
    (f : Field) (ships : List (List Nat))
    (h : generate_field fieldSize maxDeckLength picks = some (f, ships)) :
    (∀ L, 1 ≤ L → L ≤ maxDeckLength →
      (ships.filter fun s => s.length == L).length = maxDeckLength - L + 1) ∧
    (maxDeckLength = 4 →
      (ships.filter fun s => s.length == 4).length = 1 ∧
      (ships.filter fun s => s.length == 3).length = 2 ∧
      (ships.filter fun s => s.length == 2).length = 3 ∧
      (ships.filter fun s => s.length == 1).length = 4 ∧
      ships.length = 10 ∧
      f.count FieldCell.SHIP = 20) := by
  obtain ⟨hInv, hlen⟩ := generate_field_inv h
  constructor
  · intro L hL1 hL2
    rw [filter_length_eq_count, hlen]
    exact count_shipPlacements maxDeckLength L hL1 hL2
  · rintro rfl
    have hcount : ∀ L, (ships.filter fun s => s.length == L).length =
        (shipPlacements 4).count L := by
      intro L
      rw [filter_length_eq_count, hlen]
    have hships : ships.length = 10 := by
      have := congrArg List.length hlen
      rw [List.length_map] at this
      rw [this]
      rfl
    refine ⟨?_, ?_, ?_, ?_, hships, ?_⟩
    · rw [hcount]; rfl
    · rw [hcount]; rfl
    · rw [hcount]; rfl
    · rw [hcount]; rfl
    · rw [hInv.countShip, hlen]
      rfl

theorem generate_field_fleet_witness :
    (([[0, 1], [3], [8]] : List (List Nat)).filter fun s => s.length == 1).length =
      2 - 1 + 1 ∧
    (([[0, 1], [3], [8]] : List (List Nat)).filter fun s => s.length == 2).length =
      2 - 2 + 1 :=
  ⟨(generate_field_fleet 4 2 (fun _ => 0) genField42 [[0, 1], [3], [8]] (by decide)).1
      1 (by decide) (by decide),
   (generate_field_fleet 4 2 (fun _ => 0) genField42 [[0, 1], [3], [8]] (by decide)).1
      2 (by decide) (by decide)⟩


end Battleship
